import Mathlib

set_option maxHeartbeats 1000000

/-!
Verification of the calendar-agent frontend (`src/static/js/app.js`).

The file shallowly embeds the pure logic of the frontend: the conflict
deduplication reducer used by `formatConflicts` and `showNegotiationDialog`,
the negotiation-dialog state (proposal list, current index, navigation),
the request-construction and response-dispatch phases of `scheduleMeeting`,
the rescheduled-meeting deduplication of `acceptNegotiation`, and the
`forceScheduleMeeting` request.  Backend behaviour that the repository only
calls over HTTP (the negotiation engine's proposal ranking, the execution
engine's force path, the negotiate-response shape) is modelled from the
specification and marked as such in the corresponding doc comments.
-/

/-- One conflict record as carried inside a proposal (the JS object shape
consumed by `formatConflicts`, app.js 491-522: fields `id`, `summary`,
`priority`, `start`, `end`, `new_slot_start`, `new_slot_end`, `attendees`).
`end` is a Lean keyword, so the `end` field is called `end_`. -/
structure Conflict where
  id : String
  summary : String
  priority : Nat
  start : String
  end_ : String
  new_slot_start : String
  new_slot_end : String
  attendees : List String
deriving Repr, DecidableEq

/-- One step of JS `new Set(...)` construction: add `x` unless already seen.
Insertion order is preserved; the first occurrence wins. -/
def jsSetInsert (acc : List String) (x : String) : List String :=
  if x ∈ acc then acc else acc ++ [x]

/-- JS `[...new Set(xs)]`: the duplicate-free list of elements of `xs`,
each at the position of its first occurrence. -/
def jsSetDedup (xs : List String) : List String :=
  xs.foldl jsSetInsert []

/-- The body of the `conflicts.forEach` loop of `formatConflicts`
(app.js 496-507): on the first occurrence of an id the record is stored
with its attendee list deduplicated (`[...new Set(conflict.attendees)]`);
on a later occurrence the stored record's attendee list becomes the
deduplicated concatenation of the stored and incoming attendee lists.
The JS `Map` keeps the entry at its original (first-insertion) position,
which the list embedding realises by updating in place. -/
def conflictUpsert (acc : List Conflict) (c : Conflict) : List Conflict :=
  if acc.any (fun e => decide (e.id = c.id)) then
    acc.map (fun e =>
      if e.id = c.id then
        { e with attendees := jsSetDedup (e.attendees ++ c.attendees) }
      else e)
  else
    acc ++ [{ c with attendees := jsSetDedup c.attendees }]

/-- The map-then-merge pass of `formatConflicts` (app.js 493-507), also
duplicated verbatim inside `showNegotiationDialog` (app.js 554-569 and
578-599): fold the conflict list through `conflictUpsert`, producing
`Array.from(uniqueConflictsMap.values())`. -/
def dedupConflicts (conflicts : List Conflict) : List Conflict :=
  conflicts.foldl conflictUpsert []

/-- The HTML fragment `formatConflicts` renders for one merged conflict
(app.js 511-520). -/
def renderConflict (c : Conflict) : String :=
  "<div class=\"conflict-item mb-3 p-3 border-start border-warning border-3\">"
    ++ "<strong>" ++ c.summary ++ "</strong> "
    ++ "<span class=\"badge bg-secondary ms-1\">Priority: "
    ++ (if c.priority = 0 then "N/A" else toString c.priority) ++ "</span><br>"
    ++ "<div class=\"ms-2 mt-2\">"
    ++ "<div class=\"text-danger\"><strong>Current time:</strong> "
    ++ c.start ++ " - " ++ c.end_ ++ "</div>"
    ++ "<div class=\"text-success\"><strong>Will be moved to:</strong> "
    ++ c.new_slot_start ++ " - " ++ c.new_slot_end ++ "</div>"
    ++ "<div class=\"mt-1\"><strong>Attendees:</strong> "
    ++ String.intercalate ", " c.attendees ++ "</div>"
    ++ "</div></div>"

/-- `formatConflicts` (app.js 491-522): dedup-merge the conflicts, then
join the rendered fragments. -/
def formatConflicts (conflicts : List Conflict) : String :=
  String.join ((dedupConflicts conflicts).map renderConflict)

theorem mem_jsSetInsert (acc : List String) (x a : String) :
    a ∈ jsSetInsert acc x ↔ a ∈ acc ∨ a = x := by
  unfold jsSetInsert
  split
  · constructor
    · exact Or.inl
    · rintro (h | rfl) <;> assumption
  · simp

theorem nodup_jsSetInsert (acc : List String) (x : String) (h : acc.Nodup) :
    (jsSetInsert acc x).Nodup := by
  unfold jsSetInsert
  split
  · exact h
  · exact List.Nodup.append h (List.nodup_singleton x) (by simpa using fun hx => by simp_all)

theorem mem_foldl_jsSetInsert (xs : List String) :
    ∀ (acc : List String) (a : String),
      a ∈ xs.foldl jsSetInsert acc ↔ a ∈ acc ∨ a ∈ xs := by
  induction xs with
  | nil => simp
  | cons x xs ih =>
    intro acc a
    rw [List.foldl_cons, ih, mem_jsSetInsert]
    simp only [List.mem_cons]
    tauto

theorem nodup_foldl_jsSetInsert (xs : List String) :
    ∀ acc : List String, acc.Nodup → (xs.foldl jsSetInsert acc).Nodup := by
  induction xs with
  | nil => simp only [List.foldl_nil]; exact fun _ h => h
  | cons x xs ih =>
    intro acc h
    rw [List.foldl_cons]
    exact ih _ (nodup_jsSetInsert acc x h)

theorem mem_jsSetDedup (xs : List String) (a : String) :
    a ∈ jsSetDedup xs ↔ a ∈ xs := by
  unfold jsSetDedup
  rw [mem_foldl_jsSetInsert]
  simp

theorem nodup_jsSetDedup (xs : List String) : (jsSetDedup xs).Nodup :=
  nodup_foldl_jsSetInsert xs [] List.nodup_nil

theorem foldl_jsSetInsert_eq_append (xs : List String) :
    ∀ acc : List String, xs.Nodup → (∀ a ∈ xs, a ∉ acc) →
      xs.foldl jsSetInsert acc = acc ++ xs := by
  induction xs with
  | nil => simp
  | cons x xs ih =>
    intro acc hnd hdisj
    rw [List.foldl_cons]
    have hx : x ∉ acc := hdisj x (List.mem_cons_self x xs)
    have hstep : jsSetInsert acc x = acc ++ [x] := if_neg hx
    rw [hstep, ih (acc ++ [x]) (List.Nodup.of_cons hnd)]
    · simp
    · intro a ha
      have h1 : a ∉ acc := hdisj a (List.mem_cons_of_mem x ha)
      have h2 : a ≠ x := by
        rintro rfl
        exact (List.nodup_cons.mp hnd).1 ha
      simp [h1, h2]

theorem jsSetDedup_eq_self_of_nodup (xs : List String) (h : xs.Nodup) :
    jsSetDedup xs = xs := by
  unfold jsSetDedup
  simpa using foldl_jsSetInsert_eq_append xs [] h (by simp)

theorem map_id_conflictUpsert (acc : List Conflict) (c : Conflict) :
    (conflictUpsert acc c).map Conflict.id = jsSetInsert (acc.map Conflict.id) c.id := by
  unfold conflictUpsert jsSetInsert
  by_cases h : ∃ e ∈ acc, e.id = c.id
  · obtain ⟨e₀, he₀, hid₀⟩ := h
    rw [if_pos (List.any_eq_true.mpr ⟨e₀, he₀, by simpa using hid₀⟩),
        if_pos (List.mem_map.mpr ⟨e₀, he₀, hid₀⟩), List.map_map]
    apply List.map_congr_left
    intro e _
    by_cases he : e.id = c.id <;> simp [he]
  · rw [if_neg, if_neg]
    · simp
    · intro hmem
      obtain ⟨e, he, hid⟩ := List.mem_map.mp hmem
      exact h ⟨e, he, hid⟩
    · simp only [List.any_eq_true, decide_eq_true_eq, not_exists, not_and]
      intro e he hid
      exact h ⟨e, he, hid⟩

theorem map_id_foldl_conflictUpsert (cs : List Conflict) :
    ∀ acc : List Conflict,
      (cs.foldl conflictUpsert acc).map Conflict.id
        = (cs.map Conflict.id).foldl jsSetInsert (acc.map Conflict.id) := by
  induction cs with
  | nil => simp
  | cons c cs ih =>
    intro acc
    rw [List.foldl_cons, List.map_cons, List.foldl_cons, ih,
        map_id_conflictUpsert]

theorem map_id_dedupConflicts (cs : List Conflict) :
    (dedupConflicts cs).map Conflict.id = jsSetDedup (cs.map Conflict.id) := by
  unfold dedupConflicts jsSetDedup
  simpa using map_id_foldl_conflictUpsert cs []

theorem nodup_id_dedupConflicts (cs : List Conflict) :
    ((dedupConflicts cs).map Conflict.id).Nodup := by
  rw [map_id_dedupConflicts]
  exact nodup_jsSetDedup _

theorem attendees_nodup_conflictUpsert (acc : List Conflict) (c : Conflict)
    (h : ∀ e ∈ acc, e.attendees.Nodup) :
    ∀ e ∈ conflictUpsert acc c, e.attendees.Nodup := by
  unfold conflictUpsert
  split
  · intro e he
    obtain ⟨e₀, he₀, rfl⟩ := List.mem_map.mp he
    by_cases hid : e₀.id = c.id
    · simp only [if_pos hid]
      exact nodup_jsSetDedup _
    · simp only [if_neg hid]
      exact h e₀ he₀
  · intro e he
    rcases List.mem_append.mp he with h' | h'
    · exact h e h'
    · rw [List.mem_singleton] at h'
      subst h'
      exact nodup_jsSetDedup _

theorem attendees_nodup_foldl_conflictUpsert (cs : List Conflict) :
    ∀ acc : List Conflict, (∀ e ∈ acc, e.attendees.Nodup) →
      ∀ e ∈ cs.foldl conflictUpsert acc, e.attendees.Nodup := by
  induction cs with
  | nil => simp only [List.foldl_nil]; exact fun _ h => h
  | cons c cs ih =>
    intro acc h
    rw [List.foldl_cons]
    exact ih _ (attendees_nodup_conflictUpsert acc c h)

theorem attendees_nodup_dedupConflicts (cs : List Conflict) :
    ∀ e ∈ dedupConflicts cs, e.attendees.Nodup :=
  attendees_nodup_foldl_conflictUpsert cs [] (by simp)

theorem exists_attendee_conflictUpsert (acc : List Conflict) (c : Conflict)
    (i a : String) :
    (∃ e ∈ conflictUpsert acc c, e.id = i ∧ a ∈ e.attendees)
      ↔ (∃ e ∈ acc, e.id = i ∧ a ∈ e.attendees) ∨ (c.id = i ∧ a ∈ c.attendees) := by
  unfold conflictUpsert
  by_cases hany : ∃ e₀ ∈ acc, e₀.id = c.id
  · obtain ⟨e₀, he₀, hid₀⟩ := hany
    rw [if_pos (List.any_eq_true.mpr ⟨e₀, he₀, by simpa using hid₀⟩)]
    constructor
    · rintro ⟨e', he', hid, ha⟩
      obtain ⟨e, he, rfl⟩ := List.mem_map.mp he'
      by_cases hec : e.id = c.id
      · simp only [if_pos hec] at hid ha
        rw [mem_jsSetDedup, List.mem_append] at ha
        rcases ha with ha | ha
        · exact Or.inl ⟨e, he, hid, ha⟩
        · exact Or.inr ⟨hec ▸ hid, ha⟩
      · simp only [if_neg hec] at hid ha
        exact Or.inl ⟨e, he, hid, ha⟩
    · rintro (⟨e, he, hid, ha⟩ | ⟨hcid, ha⟩)
      · refine ⟨if e.id = c.id then
            { e with attendees := jsSetDedup (e.attendees ++ c.attendees) } else e,
          List.mem_map.mpr ⟨e, he, rfl⟩, ?_⟩
        by_cases hec : e.id = c.id
        · simp only [if_pos hec]
          exact ⟨hid, by rw [mem_jsSetDedup, List.mem_append]; exact Or.inl ha⟩
        · simp only [if_neg hec]
          exact ⟨hid, ha⟩
      · refine ⟨if e₀.id = c.id then
            { e₀ with attendees := jsSetDedup (e₀.attendees ++ c.attendees) } else e₀,
          List.mem_map.mpr ⟨e₀, he₀, rfl⟩, ?_⟩
        simp only [if_pos hid₀]
        refine ⟨by simpa using hid₀ ▸ hcid, ?_⟩
        rw [mem_jsSetDedup, List.mem_append]
        exact Or.inr ha
  · rw [if_neg]
    · constructor
      · rintro ⟨e, he, hid, ha⟩
        rcases List.mem_append.mp he with h' | h'
        · exact Or.inl ⟨e, h', hid, ha⟩
        · rw [List.mem_singleton] at h'
          subst h'
          rw [mem_jsSetDedup] at ha
          exact Or.inr ⟨hid, ha⟩
      · rintro (⟨e, he, hid, ha⟩ | ⟨hcid, ha⟩)
        · exact ⟨e, List.mem_append.mpr (Or.inl he), hid, ha⟩
        · exact ⟨{ c with attendees := jsSetDedup c.attendees },
            List.mem_append.mpr (Or.inr (List.mem_singleton.mpr rfl)),
            hcid, by rw [mem_jsSetDedup]; exact ha⟩
    · simp only [List.any_eq_true, decide_eq_true_eq, not_exists, not_and]
      intro e he hid
      exact hany ⟨e, he, hid⟩

theorem exists_attendee_foldl_conflictUpsert (cs : List Conflict) :
    ∀ (acc : List Conflict) (i a : String),
      (∃ e ∈ cs.foldl conflictUpsert acc, e.id = i ∧ a ∈ e.attendees)
        ↔ (∃ e ∈ acc, e.id = i ∧ a ∈ e.attendees)
          ∨ (∃ c ∈ cs, c.id = i ∧ a ∈ c.attendees) := by
  induction cs with
  | nil => simp
  | cons c cs ih =>
    intro acc i a
    rw [List.foldl_cons, ih, exists_attendee_conflictUpsert]
    constructor
    · rintro ((h | h) | ⟨e, he, h⟩)
      · exact Or.inl h
      · exact Or.inr ⟨c, List.mem_cons_self c cs, h⟩
      · exact Or.inr ⟨e, List.mem_cons_of_mem c he, h⟩
    · rintro (h | ⟨e, he, h⟩)
      · exact Or.inl (Or.inl h)
      · rcases List.mem_cons.mp he with rfl | he
        · exact Or.inl (Or.inr h)
        · exact Or.inr ⟨e, he, h⟩

theorem exists_attendee_dedupConflicts (cs : List Conflict) (i a : String) :
    (∃ e ∈ dedupConflicts cs, e.id = i ∧ a ∈ e.attendees)
      ↔ ∃ c ∈ cs, c.id = i ∧ a ∈ c.attendees := by
  unfold dedupConflicts
  rw [exists_attendee_foldl_conflictUpsert]
  simp

theorem foldl_conflictUpsert_eq_append (cs : List Conflict) :
    ∀ acc : List Conflict,
      (∀ c ∈ cs, c.attendees.Nodup) → (cs.map Conflict.id).Nodup →
      (∀ c ∈ cs, ∀ e ∈ acc, e.id ≠ c.id) →
      cs.foldl conflictUpsert acc = acc ++ cs := by
  induction cs with
  | nil => simp
  | cons c cs ih =>
    intro acc h1 h2 h3
    have hstep : conflictUpsert acc c = acc ++ [c] := by
      unfold conflictUpsert
      rw [if_neg]
      · have hatt : jsSetDedup c.attendees = c.attendees :=
          jsSetDedup_eq_self_of_nodup _ (h1 c (List.mem_cons_self c cs))
        rw [hatt]
      · simp only [List.any_eq_true, decide_eq_true_eq, not_exists, not_and]
        intro e he
        exact h3 c (List.mem_cons_self c cs) e he
    rw [List.foldl_cons, hstep,
        ih (acc ++ [c]) (fun c' hc' => h1 c' (List.mem_cons_of_mem c hc'))
          (by rw [List.map_cons] at h2; exact (List.nodup_cons.mp h2).2) ?_]
    · simp
    · intro c' hc' e he
      rcases List.mem_append.mp he with he | he
      · exact h3 c' (List.mem_cons_of_mem c hc') e he
      · rw [List.mem_singleton] at he
        subst he
        rw [List.map_cons, List.nodup_cons] at h2
        intro hcc
        exact h2.1 (hcc ▸ List.mem_map.mpr ⟨c', hc', rfl⟩)

theorem dedupConflicts_eq_self (cs : List Conflict)
    (h1 : (cs.map Conflict.id).Nodup) (h2 : ∀ c ∈ cs, c.attendees.Nodup) :
    dedupConflicts cs = cs := by
  unfold dedupConflicts
  simpa using foldl_conflictUpsert_eq_append cs [] h2 h1 (by simp)

theorem dedupConflicts_idem (cs : List Conflict) :
    dedupConflicts (dedupConflicts cs) = dedupConflicts cs :=
  dedupConflicts_eq_self _ (nodup_id_dedupConflicts cs) (attendees_nodup_dedupConflicts cs)

/-- A calendar event as the frontend receives it from the availability
endpoint (app.js 200-215): `{id, title, start, end, organizer, attendees,
priority, description}`.  `end` is a Lean keyword, hence `end_`. -/
structure Event where
  id : String
  title : String
  start : String
  end_ : String
  organizer : String
  attendees : List String
  priority : Nat
  description : String
deriving Repr, DecidableEq

/-- A scheduling proposal as carried in a needs-negotiation response and
displayed by the negotiation dialog (fields read by app.js 612-709):
`id`, `title`, `organizer`, `attendees`, `priority`, `start_time`,
`duration_minutes`, `impact_score`, `conflicts`, `affected_attendees`.
`impact_score` is a float in the backend; it is modelled as a rational,
which is exact for every float value and for the order comparisons the
claims are about. -/
structure Proposal where
  id : String
  title : String
  organizer : String
  attendees : List String
  priority : Nat
  start_time : String
  duration_minutes : Nat
  impact_score : Rat
  conflicts : List Conflict
  affected_attendees : List String
deriving Repr, DecidableEq

/-- The response of the schedule endpoint as `scheduleMeeting` consumes it
(app.js 891-934): a `status` string plus the fields the three branches
read.  `self` is the response object itself read as a proposal: JS objects
are duck-typed and `showNegotiationDialog`'s fallback branch (app.js 608)
pushes the whole result object into `allProposals`. -/
structure ScheduleResponse where
  status : String
  event : Option Event
  message : Option String
  proposals : Option (List Proposal)
  proposal : Option Proposal
  total_proposals : Option Nat
  self : Proposal
deriving Repr, DecidableEq

/-- The negotiation dialog's module-level state (app.js 486-488):
`allProposals` and `currentConflictIndex`.  `currentNegotiation` is kept
equal to `allProposals[currentConflictIndex]` at every mutation site and
is therefore modelled as the derived accessor `currentNegotiation`. -/
structure NegotiationState where
  allProposals : List Proposal
  currentConflictIndex : Nat
deriving Repr, DecidableEq

/-- `currentNegotiation` (app.js 612, 632, 640): the proposal at the
current index; `none` models the JS `undefined` of an out-of-range read. -/
def currentNegotiation (st : NegotiationState) : Option Proposal :=
  st.allProposals.get? st.currentConflictIndex

/-- The per-proposal conflict dedup-merge block of `showNegotiationDialog`
(app.js 580-599, and 554-569 for the response object itself): replace the
proposal's conflicts by their dedup-merge. -/
def dedupProposalConflicts (p : Proposal) : Proposal :=
  { p with conflicts := dedupConflicts p.conflicts }

/-- `showNegotiationDialog` (app.js 550-649), state-building part: dedup
the response object's own conflicts, then initialise `allProposals` from
the first applicable branch — the `proposals` array (each entry's
conflicts dedup-merged), a single `proposal` when `total_proposals > 1`,
or the response object itself — and reset `currentConflictIndex` to 0. -/
def showNegotiationDialog (r : ScheduleResponse) : NegotiationState :=
  let self := dedupProposalConflicts r.self
  match r.proposals with
  | some ps => { allProposals := ps.map dedupProposalConflicts, currentConflictIndex := 0 }
  | none =>
    match r.proposal with
    | some p =>
        if 1 < r.total_proposals.getD 0 then
          { allProposals := [p], currentConflictIndex := 0 }
        else
          { allProposals := [self], currentConflictIndex := 0 }
    | none => { allProposals := [self], currentConflictIndex := 0 }

/-- The `prevConflict` click handler (app.js 629-635): decrement the index
only when it is positive, keeping `currentNegotiation` at the new index. -/
def prevConflictClick (st : NegotiationState) : NegotiationState :=
  if 0 < st.currentConflictIndex then
    { st with currentConflictIndex := st.currentConflictIndex - 1 }
  else st

/-- The `nextConflict` click handler (app.js 637-643): increment the index
only when it is below `allProposals.length - 1`.  The comparison is taken
in ℤ because JS evaluates `length - 1` as `-1` on an empty list rather
than clamping at 0. -/
def nextConflictClick (st : NegotiationState) : NegotiationState :=
  if (st.currentConflictIndex : Int) < (st.allProposals.length : Int) - 1 then
    { st with currentConflictIndex := st.currentConflictIndex + 1 }
  else st

/-- `updateNavigationButtons` (app.js 525-547): the `disabled` flags of the
prev and next buttons.  Prev is disabled exactly at index 0, next exactly
at index `length - 1` (again compared in ℤ, matching JS). -/
def updateNavigationButtons (st : NegotiationState) : Bool × Bool :=
  (st.currentConflictIndex == 0,
   (st.currentConflictIndex : Int) == (st.allProposals.length : Int) - 1)

/-- The dialog states reachable in one session: the state built by
`showNegotiationDialog`, closed under prev/next clicks. -/
inductive DialogReachable (r : ScheduleResponse) : NegotiationState → Prop
  | init : DialogReachable r (showNegotiationDialog r)
  | prev {st : NegotiationState} :
      DialogReachable r st → DialogReachable r (prevConflictClick st)
  | next {st : NegotiationState} :
      DialogReachable r st → DialogReachable r (nextConflictClick st)

/-- The UI outcome of one schedule response (app.js 894-934): a success
report about the created event (plus calendar refresh), opening the
negotiation dialog (after closing the scheduling modal), or an error
message. -/
inductive ScheduleUIAction where
  | reportSuccess (event : Option Event)
  | openNegotiation (st : NegotiationState)
  | reportError (message : String)
deriving Repr, DecidableEq

/-- The response dispatch of `scheduleMeeting` (app.js 894-934): `success`
reports the created event, `needs_negotiation` opens the negotiation
dialog on the result, and any other status surfaces
`result.message || 'Failed to schedule meeting'` as an error. -/
def handleScheduleResult (r : ScheduleResponse) : ScheduleUIAction :=
  if r.status = "success" then .reportSuccess r.event
  else if r.status = "needs_negotiation" then .openNegotiation (showNegotiationDialog r)
  else .reportError (r.message.getD "Failed to schedule meeting")

/-- Insert a proposal into a list that is already sorted by ascending
impact score, keeping it sorted. -/
def insertByImpact (p : Proposal) : List Proposal → List Proposal
  | [] => [p]
  | q :: qs =>
    if p.impact_score ≤ q.impact_score then p :: q :: qs
    else q :: insertByImpact p qs

/-- Modelled from the spec: the backend Negotiation Engine (not part of the
frontend sources) returns candidate proposals "sorted ascending by impact
score" (§4.4) — "Within one NegotiationSession, `candidate_proposals` is
sorted by non-decreasing impact score" (§3).  The ranking is modelled as an
insertion sort on `impact_score`. -/
def rankProposals (ps : List Proposal) : List Proposal :=
  ps.foldr insertByImpact []

theorem impact_dedupProposalConflicts (p : Proposal) :
    (dedupProposalConflicts p).impact_score = p.impact_score := rfl

theorem mem_insertByImpact (p x : Proposal) (l : List Proposal) :
    x ∈ insertByImpact p l ↔ x = p ∨ x ∈ l := by
  induction l with
  | nil => simp [insertByImpact]
  | cons q qs ih =>
    unfold insertByImpact
    split
    · simp
    · simp only [List.mem_cons, ih]
      tauto

theorem pairwise_insertByImpact (p : Proposal) (l : List Proposal)
    (h : l.Pairwise (fun a b => a.impact_score ≤ b.impact_score)) :
    (insertByImpact p l).Pairwise (fun a b => a.impact_score ≤ b.impact_score) := by
  induction l with
  | nil => simp [insertByImpact]
  | cons q qs ih =>
    rw [List.pairwise_cons] at h
    unfold insertByImpact
    split
    · rw [List.pairwise_cons]
      refine ⟨?_, List.pairwise_cons.mpr h⟩
      intro x hx
      rcases List.mem_cons.mp hx with rfl | hx
      · assumption
      · exact le_trans (by assumption) (h.1 x hx)
    · rw [List.pairwise_cons]
      refine ⟨?_, ih h.2⟩
      intro x hx
      rcases (mem_insertByImpact p x qs).mp hx with rfl | hx
      · exact le_of_not_le (by assumption)
      · exact h.1 x hx

theorem pairwise_rankProposals (ps : List Proposal) :
    (rankProposals ps).Pairwise (fun a b => a.impact_score ≤ b.impact_score) := by
  unfold rankProposals
  induction ps with
  | nil => simp
  | cons p ps ih =>
    rw [List.foldr_cons]
    exact pairwise_insertByImpact p _ ih

theorem length_insertByImpact (p : Proposal) (l : List Proposal) :
    (insertByImpact p l).length = l.length + 1 := by
  induction l with
  | nil => simp [insertByImpact]
  | cons q qs ih =>
    unfold insertByImpact
    split
    · simp
    · simp [ih]

theorem length_rankProposals (ps : List Proposal) :
    (rankProposals ps).length = ps.length := by
  unfold rankProposals
  induction ps with
  | nil => simp
  | cons p ps ih =>
    rw [List.foldr_cons, length_insertByImpact, ih, List.length_cons]

/-- A participant reference inside a rescheduled-meeting record: the JS
objects whose `email` field `acceptNegotiation` reads (app.js 742). -/
structure Attendee where
  email : String
deriving Repr, DecidableEq

/-- Modelled from the spec: one entry of the `rescheduled_meetings` list of
a successful negotiate response — §6: `{status:"success", event,
rescheduled_meetings:[{id, original_time, new_time, attendees[]}]}` — with
the `title` and `priority` fields the frontend additionally displays. -/
structure RescheduledMeeting where
  id : String
  title : String
  priority : Nat
  original_time : String
  new_time : String
  attendees : List Attendee
deriving Repr, DecidableEq

/-- Modelled from the spec: the success response of the negotiate endpoint
for an accept action (§6, §4.5: "Returns the created requested event plus
the list of rescheduled events with their old/new times"); the backend
producing it is not part of the frontend sources. -/
structure AcceptSuccessResult where
  event : Event
  rescheduled_meetings : List RescheduledMeeting
deriving Repr, DecidableEq

/-- One `uniqueMeetingsMap.set(meeting.id, meeting)` step of
`acceptNegotiation` (app.js 733-735): the JS `Map` keeps the position of
the first insertion of a key and overwrites the stored value. -/
def meetingUpsert (acc : List RescheduledMeeting) (m : RescheduledMeeting) :
    List RescheduledMeeting :=
  if acc.any (fun e => decide (e.id = m.id)) then
    acc.map (fun e => if e.id = m.id then m else e)
  else acc ++ [m]

/-- The rescheduled-meeting deduplication of `acceptNegotiation`
(app.js 732-738): run every entry through `meetingUpsert`, then
`Array.from(uniqueMeetingsMap.values())`. -/
def dedupRescheduled (ms : List RescheduledMeeting) : List RescheduledMeeting :=
  ms.foldl meetingUpsert []

/-- The per-meeting lines `acceptNegotiation` appends to the success
message (app.js 739-742): title, priority, old time, new time, attendee
emails. -/
def renderRescheduledMeeting (m : RescheduledMeeting) : String :=
  "\n• \"" ++ m.title ++ "\" (Priority: "
    ++ (if m.priority = 0 then "N/A" else toString m.priority) ++ ")\n"
    ++ "  From: " ++ m.original_time ++ "\n"
    ++ "  To: " ++ m.new_time ++ "\n"
    ++ "  Attendees: " ++ String.intercalate ", " (m.attendees.map Attendee.email) ++ "\n"

/-- The success message `acceptNegotiation` builds (app.js 729-744). -/
def acceptNegotiationMessage (p : Proposal) (res : AcceptSuccessResult) : String :=
  "Meeting '" ++ p.title ++ "' (Priority: "
    ++ (if p.priority = 0 then "N/A" else toString p.priority)
    ++ ") has been successfully scheduled.\n\n"
    ++ (if 0 < res.rescheduled_meetings.length then
          "Rescheduled meetings:\n"
            ++ String.join ((dedupRescheduled res.rescheduled_meetings).map
                 renderRescheduledMeeting)
        else "")

/-- The negotiate call issued by the frontend (app.js 718, 773): organizer
path segment, `proposal_id` and `action` query parameters. -/
structure NegotiateRequest where
  organizer : String
  proposal_id : String
  action : String
deriving Repr, DecidableEq

/-- `forceScheduleMeeting` (app.js 768-803), request part: POST
`negotiate?proposal_id=<current.id>&action=force` for the current
negotiation's organizer. -/
def forceScheduleMeetingRequest (cur : Proposal) : NegotiateRequest :=
  { organizer := cur.organizer, proposal_id := cur.id, action := "force" }

/-- Modelled from the spec: the backend Execution Engine's force path
(§4.5: "creates the requested event directly, ignoring all conflicts;
never deletes or relocates anything; returns the created event"); the
backend is not part of the frontend sources.  The calendar is the list of
existing events; the result is the new calendar and the created event. -/
def forceExecute (calendar : List Event) (requested : Event) :
    List Event × Event :=
  (calendar ++ [requested], requested)

theorem map_id_meetingUpsert (acc : List RescheduledMeeting)
    (m : RescheduledMeeting) :
    (meetingUpsert acc m).map RescheduledMeeting.id
      = jsSetInsert (acc.map RescheduledMeeting.id) m.id := by
  unfold meetingUpsert jsSetInsert
  by_cases h : ∃ e ∈ acc, e.id = m.id
  · obtain ⟨e₀, he₀, hid₀⟩ := h
    rw [if_pos (List.any_eq_true.mpr ⟨e₀, he₀, by simpa using hid₀⟩),
        if_pos (List.mem_map.mpr ⟨e₀, he₀, hid₀⟩), List.map_map]
    apply List.map_congr_left
    intro e _
    by_cases he : e.id = m.id <;> simp [he]
  · rw [if_neg, if_neg]
    · simp
    · intro hmem
      obtain ⟨e, he, hid⟩ := List.mem_map.mp hmem
      exact h ⟨e, he, hid⟩
    · simp only [List.any_eq_true, decide_eq_true_eq, not_exists, not_and]
      intro e he hid
      exact h ⟨e, he, hid⟩

theorem map_id_foldl_meetingUpsert (ms : List RescheduledMeeting) :
    ∀ acc : List RescheduledMeeting,
      (ms.foldl meetingUpsert acc).map RescheduledMeeting.id
        = (ms.map RescheduledMeeting.id).foldl jsSetInsert
            (acc.map RescheduledMeeting.id) := by
  induction ms with
  | nil => simp
  | cons m ms ih =>
    intro acc
    rw [List.foldl_cons, List.map_cons, List.foldl_cons, ih,
        map_id_meetingUpsert]

theorem map_id_dedupRescheduled (ms : List RescheduledMeeting) :
    (dedupRescheduled ms).map RescheduledMeeting.id
      = jsSetDedup (ms.map RescheduledMeeting.id) := by
  unfold dedupRescheduled jsSetDedup
  simpa using map_id_foldl_meetingUpsert ms []

theorem nodup_id_dedupRescheduled (ms : List RescheduledMeeting) :
    ((dedupRescheduled ms).map RescheduledMeeting.id).Nodup := by
  rw [map_id_dedupRescheduled]
  exact nodup_jsSetDedup _

theorem mem_of_mem_meetingUpsert (acc : List RescheduledMeeting)
    (m d : RescheduledMeeting) (hd : d ∈ meetingUpsert acc m) :
    d ∈ acc ∨ d = m := by
  unfold meetingUpsert at hd
  split at hd
  · obtain ⟨e, he, rfl⟩ := List.mem_map.mp hd
    by_cases hid : e.id = m.id
    · rw [if_pos hid]
      exact Or.inr rfl
    · rw [if_neg hid]
      exact Or.inl he
  · rcases List.mem_append.mp hd with h | h
    · exact Or.inl h
    · exact Or.inr (List.mem_singleton.mp h)

theorem mem_of_mem_foldl_meetingUpsert (ms : List RescheduledMeeting) :
    ∀ (acc : List RescheduledMeeting) (d : RescheduledMeeting),
      d ∈ ms.foldl meetingUpsert acc → d ∈ acc ∨ d ∈ ms := by
  induction ms with
  | nil => simp only [List.foldl_nil]; exact fun _ _ h => Or.inl h
  | cons m ms ih =>
    intro acc d hd
    rw [List.foldl_cons] at hd
    rcases ih _ d hd with h | h
    · rcases mem_of_mem_meetingUpsert acc m d h with h' | h'
      · exact Or.inl h'
      · exact Or.inr (h' ▸ List.mem_cons_self m ms)
    · exact Or.inr (List.mem_cons_of_mem m h)

theorem mem_of_mem_dedupRescheduled (ms : List RescheduledMeeting)
    (d : RescheduledMeeting) (hd : d ∈ dedupRescheduled ms) : d ∈ ms := by
  rcases mem_of_mem_foldl_meetingUpsert ms [] d hd with h | h
  · cases h
  · exact h

theorem id_covered_dedupRescheduled (ms : List RescheduledMeeting)
    (m : RescheduledMeeting) (hm : m ∈ ms) :
    ∃ d ∈ dedupRescheduled ms, d.id = m.id := by
  have : m.id ∈ (dedupRescheduled ms).map RescheduledMeeting.id := by
    rw [map_id_dedupRescheduled, mem_jsSetDedup]
    exact List.mem_map.mpr ⟨m, hm, rfl⟩
  obtain ⟨d, hd, hid⟩ := List.mem_map.mp this
  exact ⟨d, hd, hid⟩

/-- The schedule form values `scheduleMeeting` reads (app.js 808-815):
all inputs are strings except the attendee checkbox values, which arrive
as a list of emails. -/
structure MeetingForm where
  title : String
  organizer : String
  attendees : List String
  startDate : String
  endDate : String
  duration : String
  priorityValue : String
  description : String
deriving Repr, DecidableEq

/-- JS `parseInt(s)` (radix 10, as used on the duration and priority form
values): skip surrounding whitespace, read an optional sign and the
maximal digit prefix; `none` models `NaN` when no digit is found. -/
def jsParseInt (s : String) : Option Int :=
  let cs := s.data.dropWhile (fun c => c == ' ' || c == '\t' || c == '\n' || c == '\r')
  let (sign, digits) :=
    match cs with
    | '-' :: rest => ((-1 : Int), rest)
    | '+' :: rest => ((1 : Int), rest)
    | cs => ((1 : Int), cs)
  let ds := digits.takeWhile Char.isDigit
  if ds.isEmpty then none
  else some (sign * (ds.foldl (fun n c => 10 * n + (c.toNat - '0'.toNat)) 0 : Nat))

/-- The body sent to the evaluate-priority endpoint when the form priority
is `auto` (app.js 830-843): the mock event `{summary, description,
attendees:[{email}], recurrence:null}`. -/
structure EvaluatePriorityRequest where
  summary : String
  description : String
  attendees : List String
  recurrence : Option String
deriving Repr, DecidableEq

/-- The body sent to the meetings endpoint (app.js 873-883).  `Option Int`
models a JS number that may be `NaN` (serialised as `null`). -/
structure ScheduleRequestBody where
  title : String
  duration_minutes : Option Int
  organizer : String
  attendees : List String
  priority : Option Int
  description : String
  preferred_time_ranges : List (String × String)
deriving Repr, DecidableEq

/-- A network call issued by `scheduleMeeting`, in order. -/
inductive NetworkRequest where
  | evaluatePriority (organizer : String) (body : EvaluatePriorityRequest)
  | scheduleMeetingPost (organizer : String) (body : ScheduleRequestBody)
deriving Repr, DecidableEq

/-- How the request-construction phase of `scheduleMeeting` ends: an early
validation error (app.js 818-821) or the schedule request being sent. -/
inductive ScheduleRunOutcome where
  | validationError (message : String)
  | requestSent (body : ScheduleRequestBody)
deriving Repr, DecidableEq

/-- One run of `scheduleMeeting` up to the schedule POST: the network
requests it issued, in order, and how it ended. -/
structure ScheduleRun where
  requests : List NetworkRequest
  outcome : ScheduleRunOutcome
deriving Repr, DecidableEq

/-- The start bound `new Date(startDate + "T00:00:00")` rendered through
`toISOString()` (app.js 857-864).  The exact rendered text depends on the
browser's timezone; the embedding renders the local-midnight timestamp
directly.  No claim depends on the text, only on the `[start, end]` pair
structure of `preferred_time_ranges`. -/
def isoStartOf (startDate : String) : String :=
  startDate ++ "T00:00:00"

/-- The end bound `new Date(endDate + "T23:59:59")` rendered through
`toISOString()` (app.js 858-865); see `isoStartOf`. -/
def isoEndOf (endDate : String) : String :=
  endDate ++ "T23:59:59"

/-- `scheduleMeeting` (app.js 806-891), request-construction phase.
Validation (app.js 818-821) fails fast when any required field is falsy,
before any network call.  Otherwise the priority is the server-evaluated
integer when the form value is `auto` — `evalPriority` stands for the
`{priority:int}` the evaluate-priority endpoint returns — and
`parseInt(priorityValue)` otherwise; the schedule body carries
`parseInt(duration)` and the singleton `preferred_time_ranges` pair. -/
def scheduleMeeting (form : MeetingForm) (evalPriority : Int) : ScheduleRun :=
  if form.title = "" ∨ form.organizer = "" ∨ form.attendees = []
      ∨ form.startDate = "" ∨ form.endDate = "" ∨ form.duration = ""
      ∨ form.priorityValue = "" then
    { requests := [], outcome := .validationError "Please fill in all required fields" }
  else
    let priority : Option Int :=
      if form.priorityValue = "auto" then some evalPriority
      else jsParseInt form.priorityValue
    let evalRequests : List NetworkRequest :=
      if form.priorityValue = "auto" then
        [.evaluatePriority form.organizer
          { summary := form.title, description := form.description,
            attendees := form.attendees, recurrence := none }]
      else []
    let body : ScheduleRequestBody :=
      { title := form.title,
        duration_minutes := jsParseInt form.duration,
        organizer := form.organizer,
        attendees := form.attendees,
        priority := priority,
        description := form.description,
        preferred_time_ranges := [(isoStartOf form.startDate, isoEndOf form.endDate)] }
    { requests := evalRequests ++ [.scheduleMeetingPost form.organizer body],
      outcome := .requestSent body }

/-- Claim C1: the conflict dedup-merge applied by `formatConflicts` and by
the proposal preprocessing of `showNegotiationDialog` leaves no two entries
with the same id; all input records sharing an id are merged into a single
entry whose attendee list is the duplicate-free union of the merged
records' attendee lists, and every output entry's attendee list contains
no duplicates. -/
theorem conflict_dedup_merges_by_id (cs : List Conflict) :
    ((dedupConflicts cs).map Conflict.id).Nodup ∧
    (∀ e ∈ dedupConflicts cs, e.attendees.Nodup) ∧
    (∀ i a : String,
      (∃ e ∈ dedupConflicts cs, e.id = i ∧ a ∈ e.attendees)
        ↔ ∃ c ∈ cs, c.id = i ∧ a ∈ c.attendees) ∧
    formatConflicts cs = String.join ((dedupConflicts cs).map renderConflict) ∧
    ∀ p : Proposal, (dedupProposalConflicts p).conflicts = dedupConflicts p.conflicts :=
  ⟨nodup_id_dedupConflicts cs, attendees_nodup_dedupConflicts cs,
   exists_attendee_dedupConflicts cs, rfl, fun _ => rfl⟩

/-- Witness for C1 at a concrete input: two records with the same id are
merged into one entry with the deduplicated attendee union. -/
theorem conflict_dedup_merges_by_id_witness :
    ((dedupConflicts
        [⟨"e1", "Weekly", 2, "s", "t", "u", "v", ["bob", "carol"]⟩,
         ⟨"e1", "Weekly", 2, "s", "t", "u", "v", ["carol", "dave"]⟩]).map
        Conflict.id).Nodup :=
  (conflict_dedup_merges_by_id _).1

/-- Claim C8: the dedup-merge reducer preserves insertion order — the
merged conflicts appear in the formatter's output in the order of the
first occurrence of their id in the input. -/
theorem conflict_dedup_insertion_order (cs : List Conflict) :
    (dedupConflicts cs).map Conflict.id = jsSetDedup (cs.map Conflict.id) ∧
    formatConflicts cs = String.join ((dedupConflicts cs).map renderConflict) :=
  ⟨map_id_dedupConflicts cs, rfl⟩

/-- Claim C9: the conflict dedup-merge is idempotent — an input with
pairwise-distinct ids and duplicate-free attendee lists is returned
unchanged (same ids, attendee sets, and order), and applying the
dedup-merge twice equals applying it once on every input. -/
theorem conflict_dedup_idempotent (cs : List Conflict) :
    ((cs.map Conflict.id).Nodup → (∀ c ∈ cs, c.attendees.Nodup) →
      dedupConflicts cs = cs) ∧
    dedupConflicts (dedupConflicts cs) = dedupConflicts cs :=
  ⟨fun h1 h2 => dedupConflicts_eq_self cs h1 h2, dedupConflicts_idem cs⟩

/-- Witness for C9 at a concrete input: a duplicate-free list is returned
unchanged. -/
theorem conflict_dedup_idempotent_witness :
    dedupConflicts
        [⟨"e1", "Weekly", 2, "s", "t", "u", "v", ["bob"]⟩,
         ⟨"e2", "Sync", 3, "s", "t", "u", "v", ["carol"]⟩]
      = [⟨"e1", "Weekly", 2, "s", "t", "u", "v", ["bob"]⟩,
         ⟨"e2", "Sync", 3, "s", "t", "u", "v", ["carol"]⟩] :=
  (conflict_dedup_idempotent _).1 (by decide) (by decide)

theorem showNegotiationDialog_index (r : ScheduleResponse) :
    (showNegotiationDialog r).currentConflictIndex = 0 := by
  unfold showNegotiationDialog
  rcases r.proposals with _ | ps
  · rcases r.proposal with _ | p
    · rfl
    · dsimp only
      split <;> rfl
  · rfl

/-- Claim C2: when the dialog is opened on an engine-ranked candidate list
(the backend ranking is modelled from the spec as `rankProposals`) that is
non-empty, the dialog's proposal list is ordered by non-decreasing
`impact_score`, the index starts at 0, and `currentNegotiation` is the
proposal at index 0, which has minimal impact score among all of them. -/
theorem negotiation_proposals_sorted_first_preferred
    (ps : List Proposal) (r : ScheduleResponse)
    (hne : ps ≠ []) (hr : r.proposals = some (rankProposals ps)) :
    ((showNegotiationDialog r).allProposals).Pairwise
        (fun a b => a.impact_score ≤ b.impact_score) ∧
    (showNegotiationDialog r).currentConflictIndex = 0 ∧
    ∃ p₀, currentNegotiation (showNegotiationDialog r) = some p₀ ∧
      (showNegotiationDialog r).allProposals.get? 0 = some p₀ ∧
      ∀ p ∈ (showNegotiationDialog r).allProposals,
        p₀.impact_score ≤ p.impact_score := by
  have hall : (showNegotiationDialog r).allProposals
      = (rankProposals ps).map dedupProposalConflicts := by
    unfold showNegotiationDialog
    rw [hr]
  have hidx := showNegotiationDialog_index r
  have hpair : ((rankProposals ps).map dedupProposalConflicts).Pairwise
      (fun a b => a.impact_score ≤ b.impact_score) := by
    rw [List.pairwise_map]
    exact pairwise_rankProposals ps
  have hnil : (rankProposals ps).map dedupProposalConflicts ≠ [] := by
    intro h
    rw [List.map_eq_nil_iff] at h
    have hlen := length_rankProposals ps
    rw [h] at hlen
    exact hne (List.length_eq_zero.mp hlen.symm)
  obtain ⟨p₀, rest, hcons⟩ := List.exists_cons_of_ne_nil hnil
  refine ⟨by rw [hall]; exact hpair, hidx, p₀, ?_, ?_, ?_⟩
  · unfold currentNegotiation
    rw [hidx, hall, hcons]
    rfl
  · rw [hall, hcons]
    rfl
  · intro p hp
    rw [hall, hcons] at hp
    rcases List.mem_cons.mp hp with rfl | hp
    · exact le_refl _
    · rw [hcons] at hpair
      exact (List.pairwise_cons.mp hpair).1 p hp

/-- Witness for C2 at a concrete input: a two-proposal session, ranked by
the modelled engine, is presented sorted with the lower-impact proposal
first. -/
theorem negotiation_proposals_sorted_first_preferred_witness :
    (((showNegotiationDialog
        ⟨"needs_negotiation", none, none,
         some (rankProposals
           [⟨"p1", "A", "org", ["org"], 3, "s", 30, 2, [], []⟩,
            ⟨"p2", "B", "org", ["org"], 3, "s", 30, 1, [], []⟩]),
         none, none,
         ⟨"p1", "A", "org", ["org"], 3, "s", 30, 2, [], []⟩⟩).allProposals).Pairwise
        (fun a b => a.impact_score ≤ b.impact_score)) ∧
    ∃ p₀, currentNegotiation (showNegotiationDialog
        ⟨"needs_negotiation", none, none,
         some (rankProposals
           [⟨"p1", "A", "org", ["org"], 3, "s", 30, 2, [], []⟩,
            ⟨"p2", "B", "org", ["org"], 3, "s", 30, 1, [], []⟩]),
         none, none,
         ⟨"p1", "A", "org", ["org"], 3, "s", 30, 2, [], []⟩⟩) = some p₀ ∧
      (showNegotiationDialog
        ⟨"needs_negotiation", none, none,
         some (rankProposals
           [⟨"p1", "A", "org", ["org"], 3, "s", 30, 2, [], []⟩,
            ⟨"p2", "B", "org", ["org"], 3, "s", 30, 1, [], []⟩]),
         none, none,
         ⟨"p1", "A", "org", ["org"], 3, "s", 30, 2, [], []⟩⟩).allProposals.get? 0
        = some p₀ ∧
      ∀ p ∈ (showNegotiationDialog
        ⟨"needs_negotiation", none, none,
         some (rankProposals
           [⟨"p1", "A", "org", ["org"], 3, "s", 30, 2, [], []⟩,
            ⟨"p2", "B", "org", ["org"], 3, "s", 30, 1, [], []⟩]),
         none, none,
         ⟨"p1", "A", "org", ["org"], 3, "s", 30, 2, [], []⟩⟩).allProposals,
        p₀.impact_score ≤ p.impact_score :=
  ⟨(negotiation_proposals_sorted_first_preferred
      [⟨"p1", "A", "org", ["org"], 3, "s", 30, 2, [], []⟩,
       ⟨"p2", "B", "org", ["org"], 3, "s", 30, 1, [], []⟩] _
      (by simp) rfl).1,
   (negotiation_proposals_sorted_first_preferred
      [⟨"p1", "A", "org", ["org"], 3, "s", 30, 2, [], []⟩,
       ⟨"p2", "B", "org", ["org"], 3, "s", 30, 1, [], []⟩] _
      (by simp) rfl).2.2⟩

theorem dialog_reachable_index_lt (r : ScheduleResponse)
    (hne : (showNegotiationDialog r).allProposals ≠ []) :
    ∀ st : NegotiationState, DialogReachable r st →
      st.currentConflictIndex < st.allProposals.length := by
  intro st h
  induction h with
  | init =>
    rw [showNegotiationDialog_index]
    exact List.length_pos.mpr hne
  | prev h ih =>
    unfold prevConflictClick
    split
    · dsimp only
      omega
    · exact ih
  | next h ih =>
    unfold nextConflictClick
    split
    · dsimp only
      rename_i hc
      omega
    · exact ih

/-- Claim C10: throughout a dialog session with a non-empty proposal list
the current index stays in `[0, length - 1]`: it starts at 0, prev/next
move it only within bounds, and the prev button is disabled exactly at
index 0 while the next button is disabled exactly at the last index. -/
theorem dialog_index_invariant (r : ScheduleResponse) (st : NegotiationState)
    (h : DialogReachable r st)
    (hne : (showNegotiationDialog r).allProposals ≠ []) :
    st.currentConflictIndex < st.allProposals.length ∧
    (showNegotiationDialog r).currentConflictIndex = 0 ∧
    ((updateNavigationButtons st).1 = true ↔ st.currentConflictIndex = 0) ∧
    ((updateNavigationButtons st).2 = true ↔
        st.currentConflictIndex = st.allProposals.length - 1) := by
  have hlt := dialog_reachable_index_lt r hne st h
  refine ⟨hlt, showNegotiationDialog_index r, ?_, ?_⟩
  · unfold updateNavigationButtons
    simp
  · unfold updateNavigationButtons
    simp only [beq_iff_eq]
    omega

/-- Witness for C10 at a concrete input: in a freshly opened two-proposal
dialog the index is 0, in bounds, prev is disabled and next is enabled. -/
theorem dialog_index_invariant_witness :
    (showNegotiationDialog
        ⟨"needs_negotiation", none, none,
         some [⟨"p1", "A", "org", ["org"], 3, "s", 30, 1, [], []⟩,
               ⟨"p2", "B", "org", ["org"], 3, "s", 30, 2, [], []⟩],
         none, none,
         ⟨"p1", "A", "org", ["org"], 3, "s", 30, 1, [], []⟩⟩).currentConflictIndex
      < (showNegotiationDialog
        ⟨"needs_negotiation", none, none,
         some [⟨"p1", "A", "org", ["org"], 3, "s", 30, 1, [], []⟩,
               ⟨"p2", "B", "org", ["org"], 3, "s", 30, 2, [], []⟩],
         none, none,
         ⟨"p1", "A", "org", ["org"], 3, "s", 30, 1, [], []⟩⟩).allProposals.length :=
  (dialog_index_invariant _ _ (DialogReachable.init) (by decide)).1

/-- Claim C3: force scheduling issues the negotiate action `"force"`, and
the force execution (modelled from the spec, §4.5) creates exactly the
requested event while leaving every existing event in place and
unchanged — no event is deleted, relocated, or otherwise mutated. -/
theorem force_creates_without_mutating (cur : Proposal) (cal : List Event)
    (e : Event) :
    (forceScheduleMeetingRequest cur).action = "force" ∧
    (forceScheduleMeetingRequest cur).proposal_id = cur.id ∧
    (forceExecute cal e).2 = e ∧
    (forceExecute cal e).1 = cal ++ [e] ∧
    (∀ ev ∈ cal, ev ∈ (forceExecute cal e).1) ∧
    ∀ ev : Event, (forceExecute cal e).1.count ev
        = cal.count ev + (if ev = e then 1 else 0) := by
  refine ⟨rfl, rfl, rfl, rfl, ?_, ?_⟩
  · intro ev hev
    exact List.mem_append.mpr (Or.inl hev)
  · intro ev
    unfold forceExecute
    rw [List.count_append]
    congr 1
    simp [List.count_singleton', beq_iff_eq, eq_comm]

/-- Witness for C3 at a concrete input: forcing over a one-event calendar
keeps the existing event. -/
theorem force_creates_without_mutating_witness :
    ∀ ev ∈ [Event.mk "e1" "Standup" "s" "t" "org" ["org"] 2 ""],
      ev ∈ (forceExecute [Event.mk "e1" "Standup" "s" "t" "org" ["org"] 2 ""]
        (Event.mk "e2" "Sync" "s" "t" "org" ["org"] 4 "")).1 :=
  (force_creates_without_mutating
    ⟨"p1", "Sync", "org", ["org"], 4, "s", 30, 1, [], []⟩
    [Event.mk "e1" "Standup" "s" "t" "org" ["org"] 2 ""]
    (Event.mk "e2" "Sync" "s" "t" "org" ["org"] 4 "")).2.2.2.2.1

/-- Claim C4: `scheduleMeeting` handles exactly the three tagged outcomes —
`success` reports the created event, `needs_negotiation` opens the
negotiation dialog on the result, and any other status is surfaced as an
error with its message (or a default); no outcome is silently dropped. -/
theorem schedule_outcomes_handled (r : ScheduleResponse) :
    (r.status = "success" →
        handleScheduleResult r = .reportSuccess r.event) ∧
    (r.status = "needs_negotiation" →
        handleScheduleResult r = .openNegotiation (showNegotiationDialog r)) ∧
    (r.status ≠ "success" → r.status ≠ "needs_negotiation" →
        handleScheduleResult r
          = .reportError (r.message.getD "Failed to schedule meeting")) := by
  unfold handleScheduleResult
  refine ⟨fun h => ?_, fun h => ?_, fun h1 h2 => ?_⟩
  · rw [if_pos h]
  · rw [if_neg (by rw [h]; decide), if_pos h]
  · rw [if_neg h1, if_neg h2]

/-- Witness for C4 at concrete inputs: one response of each status. -/
theorem schedule_outcomes_handled_witness :
    handleScheduleResult
        ⟨"success", some (Event.mk "e1" "Sync" "s" "t" "org" ["org"] 3 ""),
         none, none, none, none,
         ⟨"", "", "", [], 0, "", 0, 0, [], []⟩⟩
      = .reportSuccess (some (Event.mk "e1" "Sync" "s" "t" "org" ["org"] 3 "")) ∧
    handleScheduleResult
        ⟨"needs_negotiation", none, none, none, none, none,
         ⟨"", "", "", [], 0, "", 0, 0, [], []⟩⟩
      = .openNegotiation (showNegotiationDialog
          ⟨"needs_negotiation", none, none, none, none, none,
           ⟨"", "", "", [], 0, "", 0, 0, [], []⟩⟩) ∧
    handleScheduleResult
        ⟨"error", none, some "boom", none, none, none,
         ⟨"", "", "", [], 0, "", 0, 0, [], []⟩⟩
      = .reportError "boom" :=
  ⟨(schedule_outcomes_handled _).1 rfl,
   (schedule_outcomes_handled _).2.1 rfl,
   (schedule_outcomes_handled _).2.2 (by decide) (by decide)⟩

/-- Claim C5: a schedule request with any required field missing is
rejected with the validation error before any lookup or network call —
`scheduleMeeting` issues no request and ends in the validation outcome. -/
theorem schedule_validation_fails_fast (form : MeetingForm) (evalPriority : Int)
    (h : form.title = "" ∨ form.organizer = "" ∨ form.attendees = []
        ∨ form.startDate = "" ∨ form.endDate = "" ∨ form.duration = ""
        ∨ form.priorityValue = "") :
    (scheduleMeeting form evalPriority).requests = [] ∧
    (scheduleMeeting form evalPriority).outcome
      = .validationError "Please fill in all required fields" := by
  unfold scheduleMeeting
  rw [if_pos h]
  exact ⟨rfl, rfl⟩

/-- Witness for C5 at a concrete input: an empty title is rejected with no
network request. -/
theorem schedule_validation_fails_fast_witness :
    (scheduleMeeting ⟨"", "org", ["org"], "2025-01-01", "2025-01-08", "30", "3", ""⟩ 0).requests = [] ∧
    (scheduleMeeting ⟨"", "org", ["org"], "2025-01-01", "2025-01-08", "30", "3", ""⟩ 0).outcome
      = .validationError "Please fill in all required fields" :=
  schedule_validation_fails_fast _ 0 (Or.inl rfl)

/-- Claim C7: when the requested priority is `auto`, `scheduleMeeting`
first obtains the integer priority from the evaluate-priority endpoint and
schedules with it; otherwise the user-selected value is parsed to an
integer and used; in both cases the schedule POST carries an integer
priority and `preferred_time_ranges` as a list of `[start, end]` pairs. -/
theorem schedule_priority_integer (form : MeetingForm) (evalPriority : Int)
    (hv : ¬ (form.title = "" ∨ form.organizer = "" ∨ form.attendees = []
        ∨ form.startDate = "" ∨ form.endDate = "" ∨ form.duration = ""
        ∨ form.priorityValue = ""))
    (hp : form.priorityValue = "auto"
        ∨ form.priorityValue ∈ (["1", "2", "3", "4", "5"] : List String)) :
    ∃ body : ScheduleRequestBody,
      (scheduleMeeting form evalPriority).outcome = .requestSent body ∧
      (scheduleMeeting form evalPriority).requests
        = (if form.priorityValue = "auto" then
            [NetworkRequest.evaluatePriority form.organizer
              ⟨form.title, form.description, form.attendees, none⟩]
           else [])
          ++ [NetworkRequest.scheduleMeetingPost form.organizer body] ∧
      (∃ k : Int, body.priority = some k) ∧
      (form.priorityValue = "auto" → body.priority = some evalPriority) ∧
      (form.priorityValue ≠ "auto" →
          body.priority = jsParseInt form.priorityValue) ∧
      body.preferred_time_ranges
        = [(isoStartOf form.startDate, isoEndOf form.endDate)] := by
  unfold scheduleMeeting
  rw [if_neg hv]
  refine ⟨_, rfl, rfl, ?_, ?_, ?_, rfl⟩
  · by_cases ha : form.priorityValue = "auto"
    · exact ⟨evalPriority, by simp [ha]⟩
    · rcases hp with ha' | hmem
      · exact absurd ha' ha
      · simp only [List.mem_cons, List.not_mem_nil, or_false] at hmem
        rcases hmem with h | h | h | h | h <;> rw [h] <;>
          dsimp only <;> rw [if_neg (by decide)]
        · exact ⟨1, by decide⟩
        · exact ⟨2, by decide⟩
        · exact ⟨3, by decide⟩
        · exact ⟨4, by decide⟩
        · exact ⟨5, by decide⟩
  · intro ha
    simp [ha]
  · intro ha
    simp [ha]

/-- Witness for C7 at a concrete input: with priority `auto` the schedule
body carries the server-evaluated integer 4. -/
theorem schedule_priority_integer_witness :
    ∃ body : ScheduleRequestBody,
      (scheduleMeeting
          ⟨"Sync", "org", ["org"], "2025-01-01", "2025-01-08", "30", "auto", ""⟩
          4).outcome = .requestSent body
        ∧ body.priority = some 4
        ∧ body.preferred_time_ranges
            = [(isoStartOf "2025-01-01", isoEndOf "2025-01-08")] :=
  match schedule_priority_integer
      ⟨"Sync", "org", ["org"], "2025-01-01", "2025-01-08", "30", "auto", ""⟩
      4 (by decide) (Or.inl rfl) with
  | ⟨body, hout, _, _, hauto, _, hpref⟩ => ⟨body, hout, hauto rfl, hpref⟩

/-- Claim C6: the accept success result (shape modelled from the spec)
carries the created event and rescheduled entries with id, original_time,
new_time and attendees; `acceptNegotiation` displays every rescheduled
meeting exactly once — displayed ids are pairwise distinct, every input id
is displayed, every displayed entry is one of the input records — and the
success message renders each deduplicated entry, whose rendering carries
its old and new times. -/
theorem accept_displays_each_rescheduled_once (res : AcceptSuccessResult)
    (p : Proposal) :
    ((dedupRescheduled res.rescheduled_meetings).map RescheduledMeeting.id).Nodup ∧
    (∀ m ∈ res.rescheduled_meetings,
        ∃ d ∈ dedupRescheduled res.rescheduled_meetings, d.id = m.id) ∧
    (∀ d ∈ dedupRescheduled res.rescheduled_meetings,
        d ∈ res.rescheduled_meetings) ∧
    (0 < res.rescheduled_meetings.length →
      acceptNegotiationMessage p res
        = "Meeting '" ++ p.title ++ "' (Priority: "
            ++ (if p.priority = 0 then "N/A" else toString p.priority)
            ++ ") has been successfully scheduled.\n\n"
            ++ ("Rescheduled meetings:\n"
              ++ String.join ((dedupRescheduled res.rescheduled_meetings).map
                   renderRescheduledMeeting))) := by
  refine ⟨nodup_id_dedupRescheduled _, ?_, ?_, ?_⟩
  · intro m hm
    exact id_covered_dedupRescheduled _ m hm
  · intro d hd
    exact mem_of_mem_dedupRescheduled _ d hd
  · intro h
    unfold acceptNegotiationMessage
    rw [if_pos h]

/-- Witness for C6 at a concrete input: two records with the same id are
displayed as one entry. -/
theorem accept_displays_each_rescheduled_once_witness :
    ((dedupRescheduled
        (AcceptSuccessResult.mk (Event.mk "e9" "Sync" "s" "t" "org" ["org"] 4 "")
          [⟨"m1", "Weekly", 2, "t1", "t2", [⟨"bob"⟩]⟩,
           ⟨"m1", "Weekly", 2, "t1", "t2", [⟨"carol"⟩]⟩]).rescheduled_meetings).map
        RescheduledMeeting.id).Nodup ∧
    ∀ d ∈ dedupRescheduled
        (AcceptSuccessResult.mk (Event.mk "e9" "Sync" "s" "t" "org" ["org"] 4 "")
          [⟨"m1", "Weekly", 2, "t1", "t2", [⟨"bob"⟩]⟩,
           ⟨"m1", "Weekly", 2, "t1", "t2", [⟨"carol"⟩]⟩]).rescheduled_meetings,
      d ∈ (AcceptSuccessResult.mk (Event.mk "e9" "Sync" "s" "t" "org" ["org"] 4 "")
          [⟨"m1", "Weekly", 2, "t1", "t2", [⟨"bob"⟩]⟩,
           ⟨"m1", "Weekly", 2, "t1", "t2", [⟨"carol"⟩]⟩]).rescheduled_meetings :=
  ⟨(accept_displays_each_rescheduled_once _
      ⟨"p1", "Sync", "org", ["org"], 4, "s", 30, 1, [], []⟩).1,
   (accept_displays_each_rescheduled_once _
      ⟨"p1", "Sync", "org", ["org"], 4, "s", 30, 1, [], []⟩).2.2.1⟩
